import Mathlib

/-!
Verification development for the PEI protocol engine of
`src/svxlink/svxlink/TetraLogic.cpp` (TETRA logic core of SvxLink).

The C++ functions relevant to the checked properties are embedded shallowly:

* strings are `List Char`; `std::map<int, Sds>` is an association list with
  strictly ascending keys (insertion via `mapInsert` mirrors `std::map::insert`,
  which does not overwrite an existing key);
* `time(NULL)` is an explicit `Nat` argument `now` passed to every operation
  that reads the clock; nothing in the source constrains successive readings;
* C `atoi` on the digit strings these functions handle is `atoi` below
  (parse the leading run of decimal digits); `sprintf` `%0Nd` is `pad`;
* the three pipeline operations `queueSds`, `checkSds` and `handleCmgs`
  act on a `TetraState` record holding exactly the member variables they
  touch (`sdsQueue`, `cmgs_received`, `last_sdsinstance`, `pending_sds`,
  `new_sds`) plus the gating inputs they read (`peistate`, `inTransmission`,
  and the modem squelch state `sqlOpen`).

`pending_sds` is a plain `Sds` member in the C++ class (it is absent from the
constructor initializer list, so it cannot be a reference), hence
`pending_sds = it->second` in `checkSds` copies the queue entry by value and
`pending_sds.tos = 0` in `handleCmgs` mutates only that copy.
-/

namespace TetraLogic

/-! ## Decimal digits, C `atoi` and `sprintf` zero padding -/

/-- A decimal digit character, by code point (48 = `0` .. 57 = `9`). -/
def isDig (c : Char) : Bool := 48 ≤ c.toNat && c.toNat ≤ 57

/-- Numeric value of a digit character. -/
def charVal (c : Char) : Nat := c.toNat - 48

/-- Digit character of a value below ten. -/
def digitChar (n : Nat) : Char := Char.ofNat (48 + n)

/-- Value of a big-endian digit string (positional base ten). -/
def parseDigits (l : List Char) : Nat :=
  l.foldl (fun a c => 10 * a + charVal c) 0

/-- C `atoi` restricted to the non-negative inputs these functions handle:
the value of the leading run of decimal digits (0 when there is none). -/
def atoi (l : List Char) : Nat := parseDigits (l.takeWhile isDig)

/-- Big-endian decimal rendering, with fuel for structural recursion
(adequate whenever `n < 10 ^ fuel`); renders `0` as the empty list. -/
def renderAux : Nat → Nat → List Char
  | 0, _ => []
  | f + 1, n => if n = 0 then [] else renderAux f (n / 10) ++ [digitChar (n % 10)]

/-- Decimal rendering of a natural number, as `printf %d`. -/
def render (n : Nat) : List Char := if n = 0 then ['0'] else renderAux n n

/-- `sprintf` with a `%0wd` conversion: zero-pad the decimal rendering on the
left to width `w` (wider values print in full). -/
def pad (w n : Nat) : List Char :=
  List.replicate (w - (render n).length) '0' ++ render n

/-! ## `TetraLogic::getTSI` (TetraLogic.cpp lines 1372–1407)

`mcc` and `mnc` are the configured country and network code member strings;
the source builds the result with `sprintf("%08d", atoi(issi))` in the short
branch and `sprintf("%04d%05d%s", t_mcc, atoi(issi), t_issi.c_str())` in the
long branch.  In the long branch `len` is the length of the *original*
argument, but `issi.substr(len-8, 8)` and `issi.erase(len-8, 8)` run on the
string after the country code has been erased, which is what the `issi.drop k`
offsets below reproduce.  (The model is used on inputs of at most 17 digits,
where the intermediate `atoi` values stay below `INT_MAX`.) -/
def getTSI (mcc mnc : List Char) (issi : List Char) : List Char :=
  let len := issi.length
  if len < 9 then
    mcc ++ mnc ++ pad 8 (atoi issi)
  else
    let k := if issi.headD ' ' = '0' then 4 else 3
    let t_mcc := atoi (issi.take k)
    let is1 := issi.drop k
    let t_issi := (is1.drop (len - 8)).take 8
    let is2 := is1.take (len - 8)
    pad 4 t_mcc ++ pad 5 (atoi is2) ++ t_issi

/-! ## Stream framer: `TetraLogic::onCharactersReceived` (lines 746–775)

The member `peistream` accumulates the bytes received from the serial port;
the while loop repeatedly searches for the first `"\r\n"`, hands every
non-empty extracted segment to `handlePeiAnswer` and erases the consumed
prefix including the terminator. -/

/-- First occurrence of the two-byte terminator (`peistream.find("\r\n")`):
`some pr` means the buffer is `pr.1 ++ '\r' :: '\n' :: pr.2` and `pr.1` is
the prefix before the first terminator. -/
def splitCRLF : List Char → Option (List Char × List Char)
  | [] => none
  | [_] => none
  | c₁ :: c₂ :: rest =>
    if c₁ = '\r' ∧ c₂ = '\n' then some ([], rest)
    else (splitCRLF (c₂ :: rest)).map fun pr => (c₁ :: pr.1, pr.2)

/-- The while loop of `onCharactersReceived` with explicit fuel; each round
removes the first complete line together with its terminator and records the
line when it is non-empty (`found != 0`). -/
def drainAux : Nat → List Char → List (List Char) × List Char
  | 0, buf => ([], buf)
  | fuel + 1, buf =>
    match splitCRLF buf with
    | none => ([], buf)
    | some pr =>
      let rest := drainAux fuel pr.2
      (if pr.1 = [] then rest.1 else pr.1 :: rest.1, rest.2)

/-- Extract every complete line of the buffer; fuel `buf.length` always
suffices because every round consumes at least the two terminator bytes. -/
def drainPei (buf : List Char) : List (List Char) × List Char :=
  drainAux buf.length buf

/-- `TetraLogic::onCharactersReceived`: append the received chunk to the
`peistream` buffer, extract the complete lines (first component: the lines
handed to `handlePeiAnswer`, in order) and keep the trailing partial line
(second component: the new value of `peistream`). -/
def onCharactersReceived (peistream : List Char) (chunk : List Char) :
    List (List Char) × List Char :=
  drainPei (peistream ++ chunk)

/-- Feed a sequence of chunks one call at a time, accumulating the lines
handed to the dispatcher and threading the buffer between calls. -/
def feedChunks : List Char → List (List Char) → List (List Char) × List Char
  | buf, [] => ([], buf)
  | buf, c :: cs =>
    let r1 := onCharactersReceived buf c
    let r2 := feedChunks r1.2 cs
    (r1.1 ++ r2.1, r2.2)

/-! ## Response classifier: `TetraLogic::handleMessage` (lines 1724–1770)

The source fills a `std::map<std::string,int>` with POSIX extended regular
expressions and scans it with `rmatch`; `std::map` iterates in lexicographic
key order, which is the order of the `mre` list below.  Each pattern is one
of four fixed shapes: a literal anchored prefix (`^lit`), the fully anchored
`^\+CTOM: [0-9]$`, the hex-run pattern `^0A[0-9A-F]{20}`, and the fully
anchored `^[8-9A-F][0-9A-F]{3}$`. -/

/-- Message kind tags (the `#define` constants of TetraLogic.cpp). -/
def OK : Nat := 0
def ERROR : Nat := 1
def CALL_BEGIN : Nat := 3
def GROUPCALL_END : Nat := 4
def SDS : Nat := 6
def TEXT_SDS : Nat := 7
def CNUMF : Nat := 8
def CALL_CONNECT : Nat := 9
def TRANSMISSION_END : Nat := 10
def CALL_RELEASED : Nat := 11
def LIP_SDS : Nat := 12
def REGISTER_TSI : Nat := 13
def STATE_SDS : Nat := 14
def OP_MODE : Nat := 15
def TRANSMISSION_GRANT : Nat := 16
def TX_DEMAND : Nat := 17
def TX_WAIT : Nat := 18
def TX_INTERRUPT : Nat := 19
def SIMPLE_LIP_SDS : Nat := 20
def COMPLEX_SDS : Nat := 21
def MS_CNUM : Nat := 22
def WAP_PROTOCOL : Nat := 23
def SIMPLE_TEXT_SDS : Nat := 24
def ACK_SDS : Nat := 25
def CMGS : Nat := 26
def CONCAT_SDS : Nat := 27
def CTGS : Nat := 28
def CTDGR : Nat := 29
def CLVL : Nat := 30
def INVALID : Nat := 254
def TIMEOUT : Nat := 255

/-- An upper-case hexadecimal digit, the character class `[0-9A-F]`. -/
def isHexUp (c : Char) : Bool :=
  (48 ≤ c.toNat && c.toNat ≤ 57) || (65 ≤ c.toNat && c.toNat ≤ 70)

/-- The four shapes of regular expression appearing in the `mre` table. -/
inductive Pat where
  | pre : List Char → Pat
  | ctom : Pat
  | lip : Pat
  | stateSds : Pat
deriving DecidableEq

/-- `rmatch` semantics for the four pattern shapes of the table. -/
def pmatch : Pat → List Char → Bool
  | .pre p, m => p.isPrefixOf m
  | .ctom, m =>
    ("+CTOM: ".toList.isPrefixOf m) && m.length = 8 && isDig (m.getD 7 ' ')
  | .lip, m =>
    ("0A".toList.isPrefixOf m) && 22 ≤ m.length
      && ((m.drop 2).take 20).all isHexUp
  | .stateSds, m =>
    m.length = 4
      && (let c := m.getD 0 ' '
          (56 ≤ c.toNat && c.toNat ≤ 57) || (65 ≤ c.toNat && c.toNat ≤ 70))
      && (m.drop 1).all isHexUp

/-- The classification table, in the iteration (lexicographic key) order of
the `std::map` of `handleMessage`. -/
def mre : List (Pat × Nat) :=
  [ (.pre "02".toList, SIMPLE_TEXT_SDS),
    (.pre "03".toList, SIMPLE_LIP_SDS),
    (.pre "04".toList, WAP_PROTOCOL),
    (.lip, LIP_SDS),
    (.pre "0C".toList, CONCAT_SDS),
    (.pre "8204".toList, TEXT_SDS),
    (.pre "821000".toList, ACK_SDS),
    (.pre "OK".toList, OK),
    (.stateSds, STATE_SDS),
    (.pre "+CDTXC:".toList, TRANSMISSION_END),
    (.pre "+CLVL:".toList, CLVL),
    (.pre "+CME ERROR".toList, ERROR),
    (.pre "+CMGS:".toList, CMGS),
    (.pre "+CNUM:".toList, MS_CNUM),
    (.pre "+CNUMF:".toList, CNUMF),
    (.pre "+CTCC:".toList, CALL_CONNECT),
    (.pre "+CTCR:".toList, CALL_RELEASED),
    (.pre "+CTDGR:".toList, CTDGR),
    (.pre "+CTGS:".toList, CTGS),
    (.pre "+CTICN:".toList, CALL_BEGIN),
    (.ctom, OP_MODE),
    (.pre "+CTSDSR:".toList, SDS),
    (.pre "+CTXD:".toList, TX_DEMAND),
    (.pre "+CTXG:".toList, TRANSMISSION_GRANT),
    (.pre "+CTXI:".toList, TX_INTERRUPT),
    (.pre "+CTXW:".toList, TX_WAIT) ]

/-- `TetraLogic::handleMessage`: first matching pattern wins; when nothing
matches the current link-health state `peistate` is returned. -/
def handleMessage (peistate : Nat) (mesg : List Char) : Nat :=
  match mre.find? (fun pr => pmatch pr.1 mesg) with
  | some pr => pr.2
  | none => peistate

/-! ## Comma-separated field helpers (TetraLib, declarations only)

`getNextStr` and `getNextVal` are declared in `TetraLib.h`, which is not part
of this repository snapshot; every call site in TetraLogic.cpp consumes one
comma-separated field (`handleCmgs` reads the three numbers of
`"0,4,65"` with three `getNextVal` calls, `handleCallReleased` obtains the
disconnect cause of `"+CTCR: 1,13"` with one `getNextStr` followed by one
`getNextVal`). -/

/-- Modelled from the spec: `getNextStr` (TetraLib.h, not under `src/`)
returns the prefix of its comma-separated argument up to the first comma and
erases it, together with the comma, from the argument — the record format of
§6 is `TSI,KIND,PAYLOAD`.  Returns (extracted field, rest). -/
def getNextStr (l : List Char) : List Char × List Char :=
  (l.takeWhile (fun c => c != ','), (l.dropWhile (fun c => c != ',')).drop 1)

/-- Modelled from the spec: `getNextVal` (TetraLib.h, not under `src/`) is
`getNextStr` followed by `atoi` on the extracted field. -/
def getNextVal (l : List Char) : Nat × List Char :=
  (atoi (getNextStr l).1, (getNextStr l).2)

/-! ## `TetraLogic::handleCallReleased` (lines 1451–1495)

Only the squelch handling and the emitted TCL event are modelled; the APRS
side channel and the Qso bookkeeping carry no algorithmic content for the
checked claim.  `DisconnectCause` is the fixed cause-code lookup table of
`TetraLib.h` (not under `src/`); it is passed as a parameter `dc`. -/

/-- `TetraLogic::handleCallReleased` on report `message`, arriving while the
modem squelch is `sqlOpen`.  Returns (squelch state afterwards, the event
string passed to `processEvent`). -/
def handleCallReleased (dc : Nat → List Char) (sqlOpen : Bool)
    (message : List Char) : Bool × List Char :=
  let m1 := (getNextStr message).2
  if sqlOpen then
    (false, "out_of_range ".toList ++ render (getNextVal m1).1)
  else
    (sqlOpen, "call_end \"".toList ++ dc (getNextVal m1).1 ++ "\"".toList)

/-- A `+CTCR: <instance>,<cause>` report line. -/
def ctcrReport (inst cause : Nat) : List Char :=
  "+CTCR: ".toList ++ render inst ++ [','] ++ render cause

/-! ## The SDS delivery pipeline (lines 1284–1331, 1861–1940)

State and operations of the outbound queue.  The record fields mirror the
C++ members; `aw` is a ghost field expressing the claim-level notion
"sent and awaiting confirmation": it is set exactly when `checkSds` sends an
entry and cleared for every entry when a `+CMGS` confirmation report is
processed (the source keeps no such per-entry flag; the ghost never
influences the computed data). -/

/-- Direction of an `Sds` (the `OUTGOING`/`INCOMING` constants). -/
inductive Direction where
  | OUTGOING : Direction
  | INCOMING : Direction
deriving DecidableEq

/-- Modelled from the spec: the `TEXT` and `RAW` payload-kind constants of the
`Sds` type live in TetraLib.h (not under `src/`); only their distinctness and
their difference from `ACK_SDS` matter here. -/
def TEXT : Nat := 1

/-- Modelled from the spec: see `TEXT`. -/
def RAW : Nat := 2

/-- An SDS message unit (the `Sds` struct). `tos` is the time of send
(0 = not yet sent), `tod` the time of delivery confirmation, `nroftries` the
retry counter.  `aw` is the ghost "sent, awaiting confirmation" marker. -/
structure Sds where
  tsi : List Char := []
  remark : List Char := []
  message : List Char := []
  id : Nat := 0
  type : Nat := 0
  direction : Direction := Direction.INCOMING
  nroftries : Nat := 0
  tos : Nat := 0
  tod : Nat := 0
  aw : Bool := false
deriving DecidableEq

/-- The members of `TetraLogic` read or written by `queueSds`, `checkSds`
and `handleCmgs`.  `sdsQueue` is the `std::map<int, Sds>` as an ascending
association list; `sqlOpen` is the state of the modem squelch
(`tetra_modem_sql->isOpen()`). -/
structure TetraState where
  sdsQueue : List (Nat × Sds)
  cmgs_received : Bool
  last_sdsinstance : Nat
  pending_sds : Sds
  new_sds : Bool
  peistate : Nat
  inTransmission : Bool
  sqlOpen : Bool
deriving DecidableEq

/-- `std::map::insert`: insert sorted by key and do nothing when the key is
already present. -/
def mapInsert (k : Nat) (v : Sds) : List (Nat × Sds) → List (Nat × Sds)
  | [] => [(k, v)]
  | (k', v') :: t =>
    if k < k' then (k, v) :: (k', v') :: t
    else if k = k' then (k', v') :: t
    else (k', v') :: mapInsert k v t

/-- `std::map::erase` of the entry found for key `k`. -/
def mapErase (k : Nat) : List (Nat × Sds) → List (Nat × Sds)
  | [] => []
  | (k', v) :: t => if k = k' then t else (k', v) :: mapErase k t

/-- Result of the scanning loop of `checkSds`: the updated queue, the keys
collected in `todelete`, the `retsds` flag, and the entry that was sent, if
any (the value copied into `pending_sds`). -/
structure ScanResult where
  q : List (Nat × Sds)
  todelete : List Nat
  retsds : Bool
  sent : Option Sds
deriving DecidableEq

/-- The `for` loop of `checkSds` (lines 1883–1932).  For every visited entry
the stale check `difftime(it->second.tos, time(NULL)) > 3600`, i.e.
`tos - now > 3600`, collects the key in `todelete`; the first entry with
`tos == 0 && direction == OUTGOING` has its retry counter incremented and is
sent — and marked with the ghost `aw` — when `canSend` holds, and either way
the loop breaks; entries that fall through the bottom of the loop set
`retsds`. -/
def scanSds (now : Nat) (canSend : Bool) : List (Nat × Sds) → ScanResult
  | [] => ⟨[], [], false, none⟩
  | (k, e) :: t =>
    let delHere : List Nat := if e.tos ≠ 0 ∧ e.tos > now + 3600 then [k] else []
    if e.tos = 0 ∧ e.direction = Direction.OUTGOING then
      let e1 := { e with nroftries := e.nroftries + 1 }
      if canSend then
        let e2 := { e1 with tos := now, aw := true }
        ⟨(k, e2) :: t, delHere, true, some e2⟩
      else
        ⟨(k, e1) :: t, delHere, false, none⟩
    else
      let r := scanSds now canSend t
      ⟨(k, e) :: r.q, delHere ++ r.todelete, true, r.sent⟩

/-- `TetraLogic::checkSds` (lines 1871–1940): early `return true` while a
confirmation is outstanding; otherwise scan the queue (sending gated on
`peistate == OK && !inTransmission && !tetra_modem_sql->isOpen()`), then
erase the keys collected in `todelete`.  Returns (new state, `retsds`). -/
def checkSds (now : Nat) (s : TetraState) : TetraState × Bool :=
  if s.cmgs_received = false then (s, true)
  else
    let canSend := s.peistate == OK && !s.inTransmission && !s.sqlOpen
    let r := scanSds now canSend s.sdsQueue
    let q2 := r.todelete.foldl (fun q k => mapErase k q) r.q
    ({ s with
        sdsQueue := q2,
        cmgs_received := if r.sent.isSome then false else s.cmgs_received,
        pending_sds := match r.sent with
          | some e => e
          | none => s.pending_sds },
     r.retsds)

/-- `TetraLogic::queueSds` (lines 1861–1868): key the new entry by
`sdsQueue.size() + 1`, clear its time of send, `std::map::insert` it, store
the result of an immediate drain in `new_sds` and return `sdsQueue.size()`. -/
def queueSds (t_sds : Sds) (now : Nat) (s : TetraState) : TetraState × Nat :=
  let k := s.sdsQueue.length + 1
  let s1 := { s with sdsQueue := mapInsert k { t_sds with tos := 0, aw := false } s.sdsQueue }
  let r := checkSds now s1
  ({ r.1 with new_sds := r.2 }, r.1.sdsQueue.length)

/-- `<SDS status>` value 4: message sent OK (comment at line 1292). -/
def SDS_SEND_OK : Nat := 4

/-- `<SDS status>` value 5: sending failed (comment at line 1292). -/
def SDS_SEND_FAILED : Nat := 5

/-- `TetraLogic::handleCmgs` (lines 1284–1318) up to, but not including, the
final `checkSds()` call: on an id match a failed status resets the time of
send of `pending_sds` — the by-value copy, not the queue entry — and an OK
status sets `cmgs_received`; afterwards `cmgs_received` is set
unconditionally and the instance id is remembered.  The ghost `aw` marker of
every queue entry is cleared: the confirmation report resolves the
outstanding send. -/
def handleCmgsCore (sds_inst state mref : Nat) (s : TetraState) : TetraState :=
  let s1 :=
    if s.last_sdsinstance = sds_inst then
      if state = SDS_SEND_FAILED then
        { s with pending_sds := { s.pending_sds with tos := 0 } }
      else if state = SDS_SEND_OK then
        { s with cmgs_received := true }
      else s
    else s
  { s1 with
      cmgs_received := true,
      last_sdsinstance := sds_inst,
      sdsQueue := s1.sdsQueue.map (fun p => (p.1, { p.2 with aw := false })) }

/-- `TetraLogic::handleCmgs` (lines 1284–1331): the report handling of
`handleCmgsCore` followed by the `checkSds()` drain. -/
def handleCmgs (sds_inst state mref : Nat) (now : Nat) (s : TetraState) :
    TetraState :=
  (checkSds now (handleCmgsCore sds_inst state mref s)).1

/-- `TetraLogic::sdsPtyReceived` (lines 1622–1642): drop the trailing byte of
the record, split the injected line at the first two commas into TSI, kind
and payload, and enqueue one outgoing SDS (type `TEXT` when the kind field is
`"T"`, else `RAW`). -/
def sdsPtyReceived (buf : List Char) (now : Nat) (s : TetraState) : TetraState :=
  let injmessage := buf.dropLast
  let p1 := getNextStr injmessage
  let p2 := getNextStr p1.2
  let t_sds : Sds :=
    { tsi := p1.1, message := p2.2, direction := Direction.OUTGOING,
      type := if p2.1 = ['T'] then TEXT else RAW }
  (queueSds t_sds now s).1

/-- Number of queue entries carrying the ghost "sent, awaiting confirmation"
marker. -/
def awCount (q : List (Nat × Sds)) : Nat := q.countP (fun p => p.2.aw)

/-- The pipeline state at construction time: empty queue, `cmgs_received`
latch true (constructor initializer, line 197).  `last_sdsinstance` and
`pending_sds` are not initialized by the constructor; their (indeterminate)
initial values are modelled as 0 and the default `Sds` — no checked property
depends on them before they are first assigned.  The gating inputs
`peistate`, `inTransmission` and `sqlOpen` are environment-controlled. -/
def initState (pe : Nat) (inT sql : Bool) : TetraState :=
  { sdsQueue := [], cmgs_received := true, last_sdsinstance := 0,
    pending_sds := {}, new_sds := false, peistate := pe,
    inTransmission := inT, sqlOpen := sql }

/-- States of the SDS pipeline reachable by any sequence of enqueue, drain
and confirmation-report operations (with arbitrary clock readings and
arbitrary changes of the environment-controlled gating inputs in between). -/
inductive Reach : TetraState → Prop where
  | init : ∀ pe inT sql, Reach (initState pe inT sql)
  | step_queue : ∀ s sds now, Reach s → Reach (queueSds sds now s).1
  | step_check : ∀ s now, Reach s → Reach (checkSds now s).1
  | step_cmgs : ∀ s i st mref now, Reach s →
      Reach (handleCmgs i st mref now s)
  | step_env : ∀ s pe inT sql, Reach s →
      Reach { s with peistate := pe, inTransmission := inT, sqlOpen := sql }

/-! ### Concrete pipeline scenarios

Trace states used to evaluate the pipeline code on concrete inputs.  All of
them start from `initState 0 false false`: link health `OK`, no transmission,
squelch closed, so the gating conditions of `checkSds` hold. -/

/-- An outgoing text SDS, enqueued at time 500 and sent immediately. -/
def c2_sds : Sds :=
  { tsi := ['2', '3', '4', '0', '1'], message := ['H', 'i'],
    direction := Direction.OUTGOING, type := TEXT }

/-- State after enqueuing (and sending) `c2_sds` at time 500. -/
def c2_s1 : TetraState := (queueSds c2_sds 500 (initState 0 false false)).1

/-- State after a first confirmation report `+CMGS: 7,4,1` at time 600: the
radio's instance id 7 is remembered and the latch is cleared. -/
def c2_s2 : TetraState := handleCmgs 7 4 1 600 c2_s1

/-- State after a second report `+CMGS: 7,5,1` (matching instance id 7,
status `SDS_SEND_FAILED`) at time 700. -/
def c2_s3 : TetraState := handleCmgs 7 5 1 700 c2_s2

/-- A queue entry sent at time 100 and never confirmed. -/
def c3_entry : Sds :=
  { tsi := ['2', '3', '4', '0', '1'], message := ['O', 'l', 'd'],
    direction := Direction.OUTGOING, type := TEXT, tos := 100, nroftries := 1 }

/-- A pipeline state holding `c3_entry`, with the latch clear so that a drain
scans the queue. -/
def c3_state : TetraState :=
  { sdsQueue := [(1, c3_entry)], cmgs_received := true, last_sdsinstance := 1,
    pending_sds := c3_entry, new_sds := false, peistate := 0,
    inTransmission := false, sqlOpen := false }

/-- The record of the spec's injection example, with one trailing byte. -/
def c7_input : List Char := "0901163830023401,T,Hello\n".toList

/-- State after injecting `c7_input` (during a transmission, so the enqueued
entry is not yet sent and keeps `tos = 0`). -/
def c7_state : TetraState := sdsPtyReceived c7_input 100 (initState 0 true false)

/-- First enqueued message of the key-collision scenario. -/
def c10_mA : Sds :=
  { tsi := ['1'], message := ['A'], direction := Direction.OUTGOING, type := TEXT }

/-- Second enqueued message of the key-collision scenario. -/
def c10_mB : Sds :=
  { tsi := ['2'], message := ['B'], direction := Direction.OUTGOING, type := TEXT }

/-- The message that the collision silently drops. -/
def c10_mC : Sds :=
  { tsi := ['3'], message := ['C'], direction := Direction.OUTGOING, type := TEXT }

/-- Enqueue (and send) `c10_mA` at time 5000. -/
def c10_sa : TetraState := (queueSds c10_mA 5000 (initState 0 false false)).1

/-- Confirm it (`+CMGS: 1,4,0`) at time 5000. -/
def c10_sb : TetraState := handleCmgs 1 4 0 5000 c10_sa

/-- Enqueue `c10_mB` under key 2 at time 100 (the clock has stepped back):
during the embedded drain the stale check `tos - now > 3600` fires for
entry 1 (`5000 - 100 > 3600`), so entry 1 is purged while entry 2 is sent. -/
def c10_sc : TetraState := (queueSds c10_mB 100 c10_sb).1

/-- Confirm entry 2 (`+CMGS: 2,4,0`).  The queue now holds only key 2. -/
def c10_s : TetraState := handleCmgs 2 4 0 100 c10_sc

/-! ### Lemmas about digits, parsing and rendering -/

theorem charVal_le_nine {c : Char} (h : isDig c = true) : charVal c ≤ 9 := by
  simp only [isDig, Bool.and_eq_true, decide_eq_true_eq] at h
  unfold charVal
  omega

theorem charVal_digitChar {d : Nat} (h : d < 10) :
    charVal (digitChar d) = d := by
  revert h; revert d; decide

theorem isDig_digitChar {d : Nat} (h : d < 10) : isDig (digitChar d) = true := by
  revert h; revert d; decide

theorem parseDigits_foldl (l : List Char) :
    ∀ a : Nat, l.foldl (fun a c => 10 * a + charVal c) a
      = a * 10 ^ l.length + parseDigits l := by
  induction l with
  | nil => intro a; simp [parseDigits]
  | cons c t ih =>
    intro a
    simp only [List.foldl_cons, List.length_cons, parseDigits]
    rw [ih (10 * a + charVal c), ih (10 * 0 + charVal c)]
    ring

theorem parseDigits_cons (c : Char) (t : List Char) :
    parseDigits (c :: t) = charVal c * 10 ^ t.length + parseDigits t := by
  show List.foldl _ 0 (c :: t) = _
  rw [List.foldl_cons, parseDigits_foldl]
  ring_nf

theorem parseDigits_append (x y : List Char) :
    parseDigits (x ++ y) = parseDigits x * 10 ^ y.length + parseDigits y := by
  show List.foldl _ 0 (x ++ y) = _
  rw [List.foldl_append, parseDigits_foldl]
  rfl

theorem parseDigits_lt {l : List Char} (h : ∀ c ∈ l, isDig c = true) :
    parseDigits l < 10 ^ l.length := by
  induction l with
  | nil => simp [parseDigits]
  | cons c t ih =>
    rw [parseDigits_cons]
    have hc : charVal c ≤ 9 := charVal_le_nine (h c (by simp))
    have ht : parseDigits t < 10 ^ t.length := ih (fun d hd => h d (by simp [hd]))
    have : (10 : Nat) ^ (c :: t).length = 10 * 10 ^ t.length := by
      simp [List.length_cons, pow_succ]; ring
    rw [this]
    nlinarith

theorem parseDigits_zero_cons (l : List Char) :
    parseDigits ('0' :: l) = parseDigits l := by
  rw [parseDigits_cons]
  have : charVal '0' = 0 := by decide
  simp [this]

theorem parseDigits_replicate_zero (k : Nat) :
    parseDigits (List.replicate k '0') = 0 := by
  induction k with
  | zero => simp [parseDigits]
  | succ n ih => rw [List.replicate_succ, parseDigits_zero_cons]; exact ih

theorem renderAux_digits {f n : Nat} : ∀ c ∈ renderAux f n, isDig c = true := by
  induction f generalizing n with
  | zero => simp [renderAux]
  | succ f ih =>
    intro c hc
    simp only [renderAux] at hc
    split at hc
    · simp at hc
    · rcases List.mem_append.mp hc with h | h
      · exact ih c h
      · simp only [List.mem_singleton] at h
        subst h
        exact isDig_digitChar (Nat.mod_lt _ (by norm_num))

theorem render_digits {n : Nat} : ∀ c ∈ render n, isDig c = true := by
  unfold render
  split
  · intro c hc; simp only [List.mem_singleton] at hc; subst hc; decide
  · exact renderAux_digits

theorem parseDigits_renderAux : ∀ f n : Nat, n < 10 ^ f →
    parseDigits (renderAux f n) = n := by
  intro f
  induction f with
  | zero => intro n h; interval_cases n; simp [renderAux, parseDigits]
  | succ f ih =>
    intro n h
    by_cases hn : n = 0
    · subst hn; simp [renderAux, parseDigits]
    · rw [renderAux, if_neg hn, parseDigits_append, parseDigits_cons]
      have hdiv : n / 10 < 10 ^ f := by
        rw [Nat.div_lt_iff_lt_mul (by norm_num : (0:Nat) < 10)]
        calc n < 10 ^ (f + 1) := h
        _ = 10 ^ f * 10 := by rw [pow_succ]
      rw [ih _ hdiv, charVal_digitChar (Nat.mod_lt _ (by norm_num))]
      simp [parseDigits]
      omega

theorem parseDigits_render (n : Nat) : parseDigits (render n) = n := by
  unfold render
  split
  · subst ‹n = 0›; decide
  · exact parseDigits_renderAux n n (Nat.lt_pow_self (by norm_num) n)

theorem takeWhile_isDig_of_all {l : List Char} (h : ∀ c ∈ l, isDig c = true) :
    l.takeWhile isDig = l := by
  induction l with
  | nil => rfl
  | cons c t ih =>
    rw [List.takeWhile_cons, if_pos (h c (by simp))]
    rw [ih (fun d hd => h d (by simp [hd]))]

theorem atoi_of_digits {l : List Char} (h : ∀ c ∈ l, isDig c = true) :
    atoi l = parseDigits l := by
  unfold atoi
  rw [takeWhile_isDig_of_all h]

theorem pad_digits {w n : Nat} : ∀ c ∈ pad w n, isDig c = true := by
  intro c hc
  rcases List.mem_append.mp hc with h | h
  · rw [List.eq_of_mem_replicate h]; decide
  · exact render_digits c h

theorem atoi_render (n : Nat) : atoi (render n) = n := by
  rw [atoi_of_digits render_digits, parseDigits_render]

theorem atoi_pad (w n : Nat) : atoi (pad w n) = n := by
  rw [atoi_of_digits pad_digits]
  unfold pad
  rw [parseDigits_append, parseDigits_replicate_zero, parseDigits_render]
  simp

theorem renderAux_length_le : ∀ f n k : Nat, n < 10 ^ k →
    (renderAux f n).length ≤ k := by
  intro f
  induction f with
  | zero => intro n k _; simp [renderAux]
  | succ f ih =>
    intro n k h
    by_cases hn : n = 0
    · subst hn; simp [renderAux]
    · rw [renderAux, if_neg hn]
      have hk : k ≠ 0 := by
        rintro rfl
        simp only [pow_zero, Nat.lt_one_iff] at h
        exact hn h
      obtain ⟨k', rfl⟩ := Nat.exists_eq_succ_of_ne_zero hk
      have hdiv : n / 10 < 10 ^ k' := by
        rw [Nat.div_lt_iff_lt_mul (by norm_num : (0:Nat) < 10)]
        calc n < 10 ^ (k' + 1) := h
        _ = 10 ^ k' * 10 := by rw [pow_succ]
      have := ih (n / 10) k' hdiv
      simp only [List.length_append, List.length_singleton]
      omega

theorem render_length_le {n k : Nat} (hk : 1 ≤ k) (h : n < 10 ^ k) :
    (render n).length ≤ k := by
  unfold render
  split
  · simpa
  · exact renderAux_length_le n n k h

theorem pad_length {w n : Nat} (h : (render n).length ≤ w) :
    (pad w n).length = w := by
  unfold pad
  simp only [List.length_append, List.length_replicate]
  omega

theorem pad_head_zero {w n : Nat} (h : (render n).length < w) :
    ∃ t, pad w n = '0' :: t := by
  unfold pad
  have : w - (render n).length = (w - (render n).length - 1) + 1 := by omega
  rw [this, List.replicate_succ]
  exact ⟨_, rfl⟩

/-! ### Behaviour of `getTSI` on long-form inputs -/

/-- On a long-form input (at least nine characters) that begins with `0`,
`getTSI` splits off a four digit country code, takes the `substr(len-8, 8)`
slice of the erased string as the subscriber part and reassembles with
`sprintf("%04d%05d%s", ...)`. -/
theorem getTSI_long (mcc mnc x : List Char) (h9 : 9 ≤ x.length)
    (h0 : x.headD ' ' = '0') :
    getTSI mcc mnc x
      = pad 4 (atoi (x.take 4)) ++ pad 5 (atoi ((x.drop 4).take (x.length - 8)))
          ++ ((x.drop 4).drop (x.length - 8)).take 8 := by
  simp only [getTSI, h0]
  rw [if_neg (by omega)]
  simp

/-- Strings of the shape `%04d%05d` ++ four digits with a country-code value
below 1000 are fixed points of `getTSI`. -/
theorem getTSI_pad_fixed (mcc mnc : List Char) (a b : Nat) (t : List Char)
    (ha : a < 1000) (ht4 : t.length = 4) :
    getTSI mcc mnc (pad 4 a ++ pad 5 b ++ t) = pad 4 a ++ pad 5 b ++ t := by
  have hra : (render a).length ≤ 3 := render_length_le (by norm_num) (by
    calc a < 1000 := ha
    _ ≤ 10 ^ 3 := by norm_num)
  have hP4 : (pad 4 a).length = 4 := pad_length (by omega)
  have hM5 : 5 ≤ (pad 5 b).length := by
    unfold pad
    simp only [List.length_append, List.length_replicate]
    omega
  obtain ⟨ptl, hphz⟩ := pad_head_zero (show (render a).length < 4 by omega)
  have hylen : (pad 4 a ++ pad 5 b ++ t).length = (pad 5 b).length + 8 := by
    simp only [List.length_append, hP4, ht4]
    omega
  have hhead : (pad 4 a ++ pad 5 b ++ t).headD ' ' = '0' := by
    rw [hphz]
    rfl
  rw [getTSI_long mcc mnc _ (by omega) hhead]
  rw [hylen]
  have hdrop4 : (pad 4 a ++ pad 5 b ++ t).drop 4 = pad 5 b ++ t := by
    rw [List.append_assoc, List.drop_left' hP4]
  have htake4 : (pad 4 a ++ pad 5 b ++ t).take 4 = pad 4 a := by
    rw [List.append_assoc, List.take_left' hP4]
  rw [hdrop4, htake4]
  have hidx : (pad 5 b).length + 8 - 8 = (pad 5 b).length := by omega
  rw [hidx]
  rw [List.take_left, List.drop_left]
  rw [atoi_pad, atoi_pad, List.take_of_length_le (by omega)]

/-- Amended idempotence: `getTSI` is idempotent on every all-digit long-form
input that begins with `0` (four digit country code), for any configured
`mcc`/`mnc`.  (The length bound keeps the model within the range where the
C `int` arithmetic of the source does not overflow.) -/
theorem getTSI_idem_long_zero (mcc mnc x : List Char)
    (hdig : ∀ c ∈ x, isDig c = true) (h9 : 9 ≤ x.length) (h17 : x.length ≤ 17)
    (h0 : x.headD ' ' = '0') :
    getTSI mcc mnc (getTSI mcc mnc x) = getTSI mcc mnc x := by
  have hx := getTSI_long mcc mnc x h9 h0
  obtain ⟨x', rfl⟩ : ∃ x', x = '0' :: x' := by
    cases x with
    | nil => simp at h9
    | cons c t =>
      simp only [List.headD_cons] at h0
      exact ⟨t, by rw [h0]⟩
  have ha : atoi (('0' :: x').take 4) < 1000 := by
    have hstep : ('0' :: x').take 4 = '0' :: x'.take 3 := rfl
    rw [hstep]
    have hd : ∀ c ∈ '0' :: x'.take 3, isDig c = true := by
      intro c hc
      rcases List.mem_cons.mp hc with h | h
      · subst h; decide
      · exact hdig c (List.mem_cons_of_mem _ (List.mem_of_mem_take h))
    rw [atoi_of_digits hd, parseDigits_zero_cons]
    have := parseDigits_lt (l := x'.take 3)
      (fun c hc => hdig c (List.mem_cons_of_mem _ (List.mem_of_mem_take hc)))
    have hl3 : (x'.take 3).length ≤ 3 := by simp
    calc parseDigits (x'.take 3) < 10 ^ (x'.take 3).length := this
    _ ≤ 10 ^ 3 := Nat.pow_le_pow_right (by norm_num) hl3
    _ = 1000 := by norm_num
  have ht4 :
      (List.take 8 (List.drop (('0' :: x').length - 8) (List.drop 4 ('0' :: x')))).length
        = 4 := by
    have hx9 : 9 ≤ x'.length + 1 := by simpa using h9
    simp only [List.length_take, List.length_drop, List.length_cons]
    omega
  rw [hx]
  exact getTSI_pad_fixed mcc mnc _ _ _ ha ht4

/-! ### Lemmas about the stream framer -/

theorem splitCRLF_spec : ∀ {l : List Char} {pr : List Char × List Char},
    splitCRLF l = some pr → l = pr.1 ++ '\r' :: '\n' :: pr.2 := by
  intro l
  induction l with
  | nil => intro pr h; simp [splitCRLF] at h
  | cons c₁ t ih =>
    intro pr h
    cases t with
    | nil => simp [splitCRLF] at h
    | cons c₂ rest =>
      simp only [splitCRLF] at h
      split at h
      · rename_i hc
        obtain ⟨hc₁, hc₂⟩ := hc
        subst hc₁ hc₂
        obtain rfl : (([], rest) : List Char × List Char) = pr :=
          Option.some.inj h
        rfl
      · simp only [Option.map_eq_some'] at h
        obtain ⟨pr', hpr', rfl⟩ := h
        have := ih hpr'
        simp [this]

theorem splitCRLF_length {l : List Char} {pr : List Char × List Char}
    (h : splitCRLF l = some pr) : pr.2.length + 2 ≤ l.length := by
  have := splitCRLF_spec h
  subst this
  simp

theorem splitCRLF_append : ∀ {x : List Char} {pr : List Char × List Char},
    splitCRLF x = some pr →
    ∀ y, splitCRLF (x ++ y) = some (pr.1, pr.2 ++ y) := by
  intro x
  induction x with
  | nil => intro pr h; simp [splitCRLF] at h
  | cons c₁ t ih =>
    intro pr h y
    cases t with
    | nil => simp [splitCRLF] at h
    | cons c₂ rest =>
      simp only [splitCRLF] at h
      show splitCRLF (c₁ :: c₂ :: (rest ++ y)) = _
      simp only [splitCRLF]
      split at h
      · rename_i hc
        rw [if_pos hc]
        obtain rfl := Option.some.inj h
        rfl
      · rename_i hc
        rw [if_neg hc]
        simp only [Option.map_eq_some'] at h
        obtain ⟨pr', hpr', rfl⟩ := h
        have h2 : splitCRLF (c₂ :: (rest ++ y)) = some (pr'.1, pr'.2 ++ y) :=
          ih hpr' y
        rw [h2]
        rfl

theorem drainAux_fuel : ∀ f₁ f₂ : Nat, ∀ buf : List Char,
    buf.length ≤ f₁ → buf.length ≤ f₂ → drainAux f₁ buf = drainAux f₂ buf := by
  intro f₁
  induction f₁ with
  | zero =>
    intro f₂ buf h₁ _
    obtain rfl : buf = [] := List.eq_nil_of_length_eq_zero (by omega)
    cases f₂ with
    | zero => rfl
    | succ f => simp [drainAux, splitCRLF]
  | succ f₁ ih =>
    intro f₂ buf h₁ h₂
    cases f₂ with
    | zero =>
      obtain rfl : buf = [] := List.eq_nil_of_length_eq_zero (by omega)
      simp [drainAux, splitCRLF]
    | succ f₂ =>
      cases hsp : splitCRLF buf with
      | none => simp [drainAux, hsp]
      | some pr =>
        have hlen := splitCRLF_length hsp
        simp only [drainAux, hsp]
        rw [ih f₂ pr.2 (by omega) (by omega)]

theorem drainPei_none {buf : List Char} (h : splitCRLF buf = none) :
    drainPei buf = ([], buf) := by
  cases buf with
  | nil => rfl
  | cons c t => simp [drainPei, drainAux, h]

theorem drainPei_some {buf : List Char} {pr : List Char × List Char}
    (h : splitCRLF buf = some pr) :
    drainPei buf
      = (if pr.1 = [] then (drainPei pr.2).1 else pr.1 :: (drainPei pr.2).1,
         (drainPei pr.2).2) := by
  have hlen := splitCRLF_length h
  cases buf with
  | nil => simp [splitCRLF] at h
  | cons c t =>
    show drainAux (t.length + 1) (c :: t) = _
    simp only [drainAux, h]
    rw [drainAux_fuel t.length pr.2.length pr.2 (by simp at hlen; omega) le_rfl]
    rfl

theorem drainPei_append_aux : ∀ n : Nat, ∀ x : List Char, x.length ≤ n →
    ∀ y : List Char,
    drainPei (x ++ y)
      = ((drainPei x).1 ++ (drainPei ((drainPei x).2 ++ y)).1,
         (drainPei ((drainPei x).2 ++ y)).2) := by
  intro n
  induction n with
  | zero =>
    intro x hx y
    obtain rfl : x = [] := List.eq_nil_of_length_eq_zero (by omega)
    rw [drainPei_none (show splitCRLF [] = none from rfl)]
    simp
  | succ n ih =>
    intro x hx y
    cases hsp : splitCRLF x with
    | none =>
      rw [drainPei_none hsp]
      simp
    | some pr =>
      have hlen := splitCRLF_length hsp
      rw [drainPei_some hsp, drainPei_some (splitCRLF_append hsp y)]
      have hrec := ih pr.2 (by omega) y
      simp only []
      rw [hrec]
      by_cases hp : pr.1 = []
      · simp [hp]
      · simp [hp]

theorem drainPei_residual : ∀ n : Nat, ∀ z : List Char, z.length ≤ n →
    splitCRLF (drainPei z).2 = none := by
  intro n
  induction n with
  | zero =>
    intro z hz
    obtain rfl : z = [] := List.eq_nil_of_length_eq_zero (by omega)
    rfl
  | succ n ih =>
    intro z hz
    cases hsp : splitCRLF z with
    | none =>
      rw [drainPei_none hsp]
      exact hsp
    | some pr =>
      have hlen := splitCRLF_length hsp
      rw [drainPei_some hsp]
      exact ih pr.2 (by omega)

theorem feedChunks_eq : ∀ (cs : List (List Char)) (b : List Char),
    splitCRLF b = none →
    feedChunks b cs
      = ((drainPei (b ++ cs.flatten)).1, (drainPei (b ++ cs.flatten)).2) := by
  intro cs
  induction cs with
  | nil =>
    intro b hb
    simp only [feedChunks, List.flatten_nil, List.append_nil]
    rw [drainPei_none hb]
  | cons c cs ih =>
    intro b hb
    simp only [feedChunks, List.flatten_cons]
    rw [ih (onCharactersReceived b c).2
          (drainPei_residual (b ++ c).length _ le_rfl)]
    show ((drainPei (b ++ c)).1 ++ (drainPei ((drainPei (b ++ c)).2 ++ cs.flatten)).1,
          (drainPei ((drainPei (b ++ c)).2 ++ cs.flatten)).2) = _
    rw [← drainPei_append_aux (b ++ c).length (b ++ c) le_rfl cs.flatten]
    rw [List.append_assoc]

/-! ### Lemmas about the SDS pipeline -/

theorem awCount_eq_zero {q : List (Nat × Sds)} (h : ∀ p ∈ q, p.2.aw = false) :
    awCount q = 0 := by
  unfold awCount
  rw [List.countP_eq_zero]
  intro p hp
  simp [h p hp]

theorem all_aw_false_of_count_zero {q : List (Nat × Sds)} (h : awCount q = 0) :
    ∀ p ∈ q, p.2.aw = false := by
  unfold awCount at h
  rw [List.countP_eq_zero] at h
  intro p hp
  have := h p hp
  simpa using this

theorem scanSds_aw (now : Nat) (c : Bool) : ∀ {q : List (Nat × Sds)},
    (∀ p ∈ q, p.2.aw = false) →
    awCount (scanSds now c q).q
      = if (scanSds now c q).sent.isSome then 1 else 0 := by
  intro q
  induction q with
  | nil => intro _; simp [scanSds, awCount]
  | cons p t ih =>
    intro h
    obtain ⟨k, e⟩ := p
    have he : e.aw = false := h (k, e) (by simp)
    have ht : ∀ p ∈ t, p.2.aw = false := fun p hp => h p (by simp [hp])
    have htz : awCount t = 0 := awCount_eq_zero ht
    simp only [scanSds]
    split
    · split
      · simp only [Option.isSome_some, if_pos]
        unfold awCount at htz ⊢
        simp [List.countP_cons, htz]
      · simp only [Option.isSome_none, Bool.false_eq_true, if_neg]
        unfold awCount at htz ⊢
        simp [List.countP_cons, htz, he]
    · have := ih ht
      unfold awCount at this ⊢
      simp [List.countP_cons, he, this]

theorem awCount_mapErase_le (k : Nat) : ∀ q : List (Nat × Sds),
    awCount (mapErase k q) ≤ awCount q := by
  intro q
  induction q with
  | nil => simp [mapErase]
  | cons p t ih =>
    obtain ⟨k', v⟩ := p
    unfold awCount at ih ⊢
    simp only [mapErase]
    split
    · simp [List.countP_cons]
    · simp only [List.countP_cons]
      omega

theorem awCount_foldl_erase_le : ∀ (l : List Nat) (q : List (Nat × Sds)),
    awCount (l.foldl (fun q k => mapErase k q) q) ≤ awCount q := by
  intro l
  induction l with
  | nil => intro q; simp
  | cons k t ih =>
    intro q
    calc awCount ((k :: t).foldl (fun q k => mapErase k q) q)
        = awCount (t.foldl (fun q k => mapErase k q) (mapErase k q)) := rfl
    _ ≤ awCount (mapErase k q) := ih _
    _ ≤ awCount q := awCount_mapErase_le k q

theorem awCount_mapInsert {v : Sds} (hv : v.aw = false) (k : Nat) :
    ∀ q : List (Nat × Sds), awCount (mapInsert k v q) = awCount q := by
  intro q
  induction q with
  | nil => simp [mapInsert, awCount, List.countP_cons, hv]
  | cons p t ih =>
    obtain ⟨k', v'⟩ := p
    unfold awCount at ih ⊢
    simp only [mapInsert]
    split
    · simp [List.countP_cons, hv]
    · split
      · rfl
      · simp only [List.countP_cons, ih]

theorem awCount_clear (q : List (Nat × Sds)) :
    awCount (q.map (fun p => (p.1, { p.2 with aw := false }))) = 0 := by
  apply awCount_eq_zero
  intro p hp
  simp only [List.mem_map] at hp
  obtain ⟨p', _, rfl⟩ := hp
  rfl

theorem checkSds_post {s : TetraState} (hc : s.cmgs_received = true)
    (now : Nat) :
    (checkSds now s).1.sdsQueue
      = (scanSds now (s.peistate == OK && !s.inTransmission && !s.sqlOpen)
          s.sdsQueue).todelete.foldl (fun q k => mapErase k q)
          (scanSds now (s.peistate == OK && !s.inTransmission && !s.sqlOpen)
            s.sdsQueue).q
    ∧ (checkSds now s).1.cmgs_received
      = (if (scanSds now (s.peistate == OK && !s.inTransmission && !s.sqlOpen)
            s.sdsQueue).sent.isSome then false else s.cmgs_received) := by
  unfold checkSds
  rw [if_neg (by simp [hc])]
  exact ⟨rfl, rfl⟩

theorem checkSds_inv {s : TetraState}
    (h1 : awCount s.sdsQueue ≤ 1)
    (h2 : s.cmgs_received = true → awCount s.sdsQueue = 0) (now : Nat) :
    awCount (checkSds now s).1.sdsQueue ≤ 1
      ∧ ((checkSds now s).1.cmgs_received = true
          → awCount (checkSds now s).1.sdsQueue = 0) := by
  cases hc : s.cmgs_received with
  | false =>
    have heq : checkSds now s = (s, true) := by
      unfold checkSds
      rw [if_pos hc]
    rw [heq]
    exact ⟨h1, fun ht => absurd ht (by simp [hc])⟩
  | true =>
    obtain ⟨hq, hcm⟩ := checkSds_post hc now
    have hall := all_aw_false_of_count_zero (h2 hc)
    have hscan := scanSds_aw now
      (s.peistate == OK && !s.inTransmission && !s.sqlOpen) hall
    have hle := awCount_foldl_erase_le
      (scanSds now (s.peistate == OK && !s.inTransmission && !s.sqlOpen)
        s.sdsQueue).todelete
      (scanSds now (s.peistate == OK && !s.inTransmission && !s.sqlOpen)
        s.sdsQueue).q
    rw [hq, hcm]
    cases hs : (scanSds now (s.peistate == OK && !s.inTransmission && !s.sqlOpen)
        s.sdsQueue).sent.isSome with
    | true =>
      rw [hs] at hscan
      simp at hscan
      refine ⟨by omega, ?_⟩
      intro ht
      simp at ht
    | false =>
      rw [hs] at hscan
      simp at hscan
      exact ⟨by omega, fun _ => by omega⟩

theorem queueSds_inv {s : TetraState}
    (h1 : awCount s.sdsQueue ≤ 1)
    (h2 : s.cmgs_received = true → awCount s.sdsQueue = 0)
    (sds : Sds) (now : Nat) :
    awCount (queueSds sds now s).1.sdsQueue ≤ 1
      ∧ ((queueSds sds now s).1.cmgs_received = true
          → awCount (queueSds sds now s).1.sdsQueue = 0) := by
  unfold queueSds
  have hins : awCount (mapInsert (s.sdsQueue.length + 1)
      { sds with tos := 0, aw := false } s.sdsQueue) = awCount s.sdsQueue :=
    awCount_mapInsert rfl _ s.sdsQueue
  have := checkSds_inv (s := { s with
      sdsQueue := mapInsert (s.sdsQueue.length + 1)
        { sds with tos := 0, aw := false } s.sdsQueue })
    (by simpa [hins] using h1) (by simpa [hins] using h2) now
  simpa using this

theorem handleCmgsCore_aw (sds_inst state mref : Nat) (s : TetraState) :
    awCount (handleCmgsCore sds_inst state mref s).sdsQueue = 0 := by
  unfold handleCmgsCore
  exact awCount_clear _

theorem handleCmgs_inv (sds_inst state mref now : Nat) (s : TetraState) :
    awCount (handleCmgs sds_inst state mref now s).sdsQueue ≤ 1
      ∧ ((handleCmgs sds_inst state mref now s).cmgs_received = true
          → awCount (handleCmgs sds_inst state mref now s).sdsQueue = 0) := by
  unfold handleCmgs
  exact checkSds_inv (by rw [handleCmgsCore_aw]; exact Nat.zero_le 1)
    (fun _ => handleCmgsCore_aw sds_inst state mref s) now

theorem reach_inv {s : TetraState} (h : Reach s) :
    awCount s.sdsQueue ≤ 1
      ∧ (s.cmgs_received = true → awCount s.sdsQueue = 0) := by
  induction h with
  | init pe inT sql => exact ⟨by simp [initState, awCount], fun _ => rfl⟩
  | step_queue s sds now _ ih => exact queueSds_inv ih.1 ih.2 sds now
  | step_check s now _ ih => exact checkSds_inv ih.1 ih.2 now
  | step_cmgs s i st mref now _ _ => exact handleCmgs_inv i st mref now s
  | step_env s pe inT sql _ ih => exact ih

/-! ### Lemmas about comma-separated fields -/

theorem takeWhile_append_all {p : Char → Bool} :
    ∀ {A : List Char}, (∀ a ∈ A, p a = true) →
    ∀ B, (A ++ B).takeWhile p = A ++ B.takeWhile p := by
  intro A
  induction A with
  | nil => intro _ B; rfl
  | cons a t ih =>
    intro h B
    have ha := h a (by simp)
    simp only [List.cons_append, List.takeWhile_cons, ha]
    simp only [if_true]
    rw [ih (fun a ha' => h a (by simp [ha'])) B]

theorem dropWhile_append_all {p : Char → Bool} :
    ∀ {A : List Char}, (∀ a ∈ A, p a = true) →
    ∀ B, (A ++ B).dropWhile p = B.dropWhile p := by
  intro A
  induction A with
  | nil => intro _ B; rfl
  | cons a t ih =>
    intro h B
    have ha := h a (by simp)
    simp only [List.cons_append, List.dropWhile_cons, ha]
    simp only [if_true]
    exact ih (fun a ha' => h a (by simp [ha'])) B

theorem takeWhile_all_eq {p : Char → Bool} {A : List Char}
    (h : ∀ a ∈ A, p a = true) : A.takeWhile p = A := by
  have := takeWhile_append_all h []
  simpa using this

theorem notComma_of_isDig {c : Char} (h : isDig c = true) :
    (c != ',') = true := by
  simp only [bne_iff_ne, ne_eq]
  rintro rfl
  simp [isDig] at h

theorem getNextStr_comma_split {A : List Char}
    (hA : ∀ a ∈ A, (a != ',') = true) (B : List Char) :
    getNextStr (A ++ ',' :: B) = (A, B) := by
  unfold getNextStr
  rw [takeWhile_append_all hA, dropWhile_append_all hA]
  simp [List.takeWhile_cons, List.dropWhile_cons]

theorem getNextVal_render (n : Nat) : (getNextVal (render n)).1 = n := by
  unfold getNextVal getNextStr
  simp only []
  rw [takeWhile_all_eq (fun a ha => notComma_of_isDig (render_digits a ha))]
  exact atoi_render n

theorem getNextStr_ctcr (inst cause : Nat) :
    getNextStr (ctcrReport inst cause)
      = ("+CTCR: ".toList ++ render inst, render cause) := by
  unfold ctcrReport
  have hA : ∀ a ∈ "+CTCR: ".toList ++ render inst, (a != ',') = true := by
    have hpre : "+CTCR: ".toList.all (fun c => c != ',') = true := by decide
    intro a ha
    rcases List.mem_append.mp ha with h | h
    · exact List.all_eq_true.mp hpre a h
    · exact notComma_of_isDig (render_digits a h)
  have : "+CTCR: ".toList ++ render inst ++ [','] ++ render cause
      = ("+CTCR: ".toList ++ render inst) ++ ',' :: render cause := by
    simp
  rw [this, getNextStr_comma_split hA]

/-! ## The checked claims -/

/-- C1: single-in-flight invariant.  In every state reachable by any sequence
of enqueue (`queueSds`), drain (`checkSds`) and confirmation-report
(`handleCmgs`) operations, at most one outbound SDS carries the
sent-and-awaiting-confirmation marker; whenever such an entry exists the
awaiting-confirmation latch is set (`cmgs_received = false`); and a drain
arriving while the latch is set sends nothing and changes nothing. -/
theorem c1_single_in_flight {s : TetraState} (h : Reach s) (now : Nat) :
    awCount s.sdsQueue ≤ 1
      ∧ (1 ≤ awCount s.sdsQueue → s.cmgs_received = false)
      ∧ (s.cmgs_received = false → checkSds now s = (s, true)) := by
  obtain ⟨h1, h2⟩ := reach_inv h
  refine ⟨h1, ?_, ?_⟩
  · intro hge
    cases hcm : s.cmgs_received with
    | false => rfl
    | true =>
      have := h2 hcm
      omega
  · intro hcf
    unfold checkSds
    rw [if_pos hcf]

/-- Witness for C1 at the concrete reachable state `c2_s1` (one entry just
sent, latch set), with drain time 800. -/
theorem c1_single_in_flight_witness :
    awCount c2_s1.sdsQueue ≤ 1
      ∧ (1 ≤ awCount c2_s1.sdsQueue → c2_s1.cmgs_received = false)
      ∧ (c2_s1.cmgs_received = false → checkSds 800 c2_s1 = (c2_s1, true)) :=
  c1_single_in_flight
    (Reach.step_queue _ c2_sds 500 (Reach.init 0 false false)) 800

/-- C2 (code bug): after the failed-delivery report `+CMGS: 7,5,1` whose
instance id matches the remembered pending entry, `handleCmgs` resets `tos`
only on the `pending_sds` by-value copy; the queue entry keeps its nonzero
time of send 500 and its retry counter 1, so the next drain — with every
gating condition satisfied and the latch clear — leaves the whole state
unchanged and never resends the entry. -/
theorem c2_failed_confirmation_not_retried :
    c2_s3.sdsQueue.map (fun p => (p.1, p.2.tos, p.2.nroftries)) = [(1, 500, 1)]
      ∧ c2_s3.pending_sds.tos = 0
      ∧ c2_s3.cmgs_received = true
      ∧ c2_s3.peistate = OK
      ∧ c2_s3.inTransmission = false
      ∧ c2_s3.sqlOpen = false
      ∧ (checkSds 800 c2_s3).1 = c2_s3 := by
  decide

/-- C3 (code bug): the queue entry of `c3_state` was sent at time 100, more
than one hour before the drain at time 5000, yet the drain leaves the whole
state — the stale entry included — unchanged: the purge comparison
`difftime(tos, now) > 3600` tests `tos - now`, which is never positive for a
past send. -/
theorem c3_stale_entry_never_purged :
    100 + 3600 < 5000
      ∧ (checkSds 5000 c3_state).1 = c3_state
      ∧ (checkSds 5000 c3_state).1.sdsQueue.map Prod.fst = [1] := by
  decide

/-- C4: for every byte sequence and every way of splitting it into successive
chunks, feeding the chunks in order to the framer hands the identical
sequence of non-empty complete lines, in the same order, to the dispatcher
as feeding the whole sequence as one chunk, with the identical trailing
partial line left in the buffer. -/
theorem c4_framer_chunking (chunks : List (List Char)) :
    feedChunks [] chunks = onCharactersReceived [] chunks.flatten := by
  rw [feedChunks_eq chunks [] rfl]
  rfl

/-- C5 (counterexample): `getTSI` is not idempotent on every valid input —
on the long-form input `9010000112345678` (three digit country code 901,
network code 00001, subscriber 12345678) the second application changes the
result again. -/
theorem c5_not_idempotent_counterexample :
    getTSI "0901".toList "16383".toList
        (getTSI "0901".toList "16383".toList "9010000112345678".toList)
      ≠ getTSI "0901".toList "16383".toList "9010000112345678".toList := by
  decide

/-- C5 (amended): `getTSI` is idempotent on every all-digit long-form input
of 9 to 17 digits that begins with `0` (i.e. carries a four digit country
code), for any configured `mcc`/`mnc`.  Long-form inputs with a three digit
country code can violate idempotence, and a normalized 17-digit TSI is not
always returned unchanged by a single application (only the result of one
application is a fixed point). -/
theorem c5_idempotent_on_long_zero (mcc mnc x : List Char)
    (hdig : ∀ c ∈ x, isDig c = true) (h9 : 9 ≤ x.length)
    (h17 : x.length ≤ 17) (h0 : x.headD ' ' = '0') :
    getTSI mcc mnc (getTSI mcc mnc x) = getTSI mcc mnc x :=
  getTSI_idem_long_zero mcc mnc x hdig h9 h17 h0

/-- Witness for C5 (amended) on the normalized 17-digit TSI
`09011638300023401`. -/
theorem c5_idempotent_witness :
    "09011638300023401".toList.all isDig = true
      ∧ 9 ≤ "09011638300023401".toList.length
      ∧ "09011638300023401".toList.length ≤ 17
      ∧ "09011638300023401".toList.headD ' ' = '0'
      ∧ getTSI "0901".toList "16383".toList
          (getTSI "0901".toList "16383".toList "09011638300023401".toList)
        = getTSI "0901".toList "16383".toList "09011638300023401".toList :=
  ⟨by decide, by decide, by decide, by decide,
   c5_idempotent_on_long_zero "0901".toList "16383".toList
     "09011638300023401".toList (by decide) (by decide) (by decide)
     (by decide)⟩

/-- C6: the report-processing part of `handleCmgs` always leaves the
awaiting-confirmation latch cleared (`cmgs_received = true`), regardless of
whether the reported instance id matches the remembered pending entry and
regardless of the reported status; the full handler is exactly that step
followed by the `checkSds` drain. -/
theorem c6_latch_always_cleared (sds_inst state mref now : Nat)
    (s : TetraState) :
    (handleCmgsCore sds_inst state mref s).cmgs_received = true
      ∧ handleCmgs sds_inst state mref now s
          = (checkSds now (handleCmgsCore sds_inst state mref s)).1 :=
  ⟨rfl, rfl⟩

/-- C7 (counterexample): injecting the record `0901163830023401,T,Hello`
(with one trailing byte) enqueues an SDS whose stored target TSI is the raw
injected 16-digit string, not the normalized 17-digit `09011638300023401`
the claim names. -/
theorem c7_raw_tsi_counterexample :
    c7_state.sdsQueue.map (fun p => p.2.tsi) = ["0901163830023401".toList]
      ∧ "0901163830023401".toList ≠ "09011638300023401".toList := by
  decide

/-- C7 (amended): injecting the record `0901163830023401,T,Hello` (with one
trailing byte) on the local channel enqueues exactly one outgoing SDS of
text type whose payload is exactly `Hello` and whose target TSI is the raw
injected string `0901163830023401`, stored without normalization. -/
theorem c7_one_text_sds_enqueued :
    c7_state.sdsQueue.map
        (fun p => (p.1, p.2.tsi, p.2.message, p.2.type, p.2.direction))
      = [(1, "0901163830023401".toList, "Hello".toList, TEXT,
          Direction.OUTGOING)] := by
  decide

/-- C8: a response line matching none of the patterns of the classification
table `mre` makes `handleMessage` return the current link-health state
`peistate`. -/
theorem c8_unmatched_returns_peistate (peistate : Nat) (mesg : List Char)
    (h : ∀ pr ∈ mre, pmatch pr.1 mesg = false) :
    handleMessage peistate mesg = peistate := by
  have hn : mre.find? (fun pr => pmatch pr.1 mesg) = none :=
    List.find?_eq_none.mpr (fun x hx => by simp [h x hx])
  unfold handleMessage
  rw [hn]

/-- Witness for C8 on the unmatched line `hello world` with the link-health
state `TIMEOUT`. -/
theorem c8_unmatched_witness :
    (∀ pr ∈ mre, pmatch pr.1 "hello world".toList = false)
      ∧ handleMessage TIMEOUT "hello world".toList = TIMEOUT :=
  ⟨by decide, c8_unmatched_returns_peistate TIMEOUT _ (by decide)⟩

/-- C9: a `+CTCR: <instance>,<cause>` report arriving while the modem
squelch is open closes the squelch and emits exactly
`out_of_range <cause>`; arriving with the squelch closed it emits exactly
`call_end "<text>"` where the text is looked up for `<cause>` in the fixed
disconnect-cause table `dc`. -/
theorem c9_call_released_events (dc : Nat → List Char) (i c : Nat)
    (sql : Bool) :
    handleCallReleased dc sql (ctcrReport i c)
      = (false,
         if sql then "out_of_range ".toList ++ render c
         else "call_end \"".toList ++ dc c ++ "\"".toList) := by
  simp only [handleCallReleased, getNextStr_ctcr]
  cases sql with
  | true => simp [getNextVal_render]
  | false => simp [getNextVal_render]

/-- C10: enqueue does not always add the message.  `c10_s` is a reachable
state in which a purge has removed the entry with the non-maximal key 1
while key 2 survived; the subsequent `queueSds` computes key
`size + 1 = 2`, which is already present, so `std::map::insert` silently
drops the new SDS: the queue is unchanged, the message never appears in it,
and `queueSds` returns the unchanged queue size. -/
theorem c10_enqueue_silently_drops :
    Reach c10_s
      ∧ c10_s.sdsQueue.map Prod.fst = [2]
      ∧ (queueSds c10_mC 1000 c10_s).1.sdsQueue = c10_s.sdsQueue
      ∧ (queueSds c10_mC 1000 c10_s).2 = c10_s.sdsQueue.length
      ∧ ∀ p ∈ (queueSds c10_mC 1000 c10_s).1.sdsQueue,
          p.2.message ≠ c10_mC.message :=
  ⟨Reach.step_cmgs _ 2 4 0 100
      (Reach.step_queue _ c10_mB 100
        (Reach.step_cmgs _ 1 4 0 5000
          (Reach.step_queue _ c10_mA 5000 (Reach.init 0 false false)))),
   by decide, by decide, by decide, by decide⟩

end TetraLogic
